import Mathlib

/-!
Verification development for the Tulire listing scraper
(`src/scraping/scraper.py`).  The Python functions relevant to the frozen
claims are shallowly embedded as executable Lean definitions: pure string
processing (price, bed/bath, pet-policy extraction) is translated directly,
the regular expressions used by the source are modelled as explicit
leftmost-search matchers, the Playwright navigation and pagination loops are
modelled as state-passing functions over an abstract page environment, and
the MongoDB bulk writes are modelled as operations on an association-list
store keyed by document id.
-/

namespace Scraper

/-! ### Python string primitives -/

/-- Python `\s` whitespace class restricted to ASCII, as used by `re` on the
scraped ASCII page text. -/
def pyIsSpace (c : Char) : Bool :=
  c = ' ' || c = '\t' || c = '\n' || c = '\x0b' || c = '\x0c' || c = '\r'

/-- Python `str.lower` on ASCII text, applied characterwise. -/
def pyLower (s : List Char) : List Char := s.map Char.toLower

/-- Python substring test `pat in s`. -/
def containsSub (pat : List Char) : List Char → Bool
  | [] => pat.isEmpty
  | c :: cs => pat.isPrefixOf (c :: cs) || containsSub pat cs

/-- Python `str.strip()`, dropping whitespace from both ends. -/
def pyStrip (cs : List Char) : List Char :=
  ((cs.dropWhile pyIsSpace).reverse.dropWhile pyIsSpace).reverse

/-- Python `str.title()` on ASCII text: an alphabetic character is uppercased
when the previous character was not alphabetic and lowercased otherwise. -/
def pyTitleGo : Bool → List Char → List Char
  | _, [] => []
  | prev, c :: cs =>
    if c.isAlpha then
      (if prev then c.toLower else c.toUpper) :: pyTitleGo true cs
    else
      c :: pyTitleGo false cs

/-- Python `str.title()` starting outside of any word. -/
def pyTitle (cs : List Char) : List Char := pyTitleGo false cs

/-- Numeric value of a digit string, as computed by Python `int`. -/
def digitsVal (ds : List Char) : Nat :=
  ds.foldl (fun a c => 10 * a + (c.toNat - 48)) 0

/-- Leftmost `re.search`: try the position matcher `m` at every suffix, left
to right, and return the first success. -/
def reSearch (m : List Char → Option α) : List Char → Option α
  | [] => m []
  | c :: cs =>
    match m (c :: cs) with
    | some v => some v
    | none => reSearch m cs

/-! ### `extract_price_from_text` -/

/-- Character class `[\d,]` of the price regex. -/
def isPriceCls (c : Char) : Bool := c.isDigit || c = ','

/-- Capture group of `\$?([\d,]+)` at one position: a maximal nonempty run of
price-class characters, converted by `int(group.replace(',', ''))`. -/
def priceGroup (cs : List Char) : Option Nat :=
  let g := cs.takeWhile isPriceCls
  if g = [] then none
  else some (digitsVal (g.filter (fun c => c ≠ ',')))

/-- Matcher for `\$?([\d,]+)` anchored at one position: an optional dollar
sign followed by the captured group. -/
def matchPriceAt : List Char → Option Nat
  | [] => none
  | c :: cs => if c = '$' then priceGroup cs else priceGroup (c :: cs)

/-- Embedding of `extract_price_from_text`: empty text returns `None`,
otherwise commas are stripped and `re.search(r'\$?([\d,]+)', ...)` yields the
first numeric match. -/
def extract_price_from_text (price_text : String) : Option Nat :=
  if price_text = "" then none
  else reSearch matchPriceAt (price_text.data.filter (fun c => c ≠ ','))

/-- Specification-side description of the price scan: the value of the first
maximal digit run of the text, if any digit occurs. -/
def firstDigitRun : List Char → Option Nat
  | [] => none
  | c :: cs =>
    if c.isDigit then some (digitsVal ((c :: cs).takeWhile (fun d => d.isDigit)))
    else firstDigitRun cs

/-! ### `extract_bed_bath_from_text` -/

/-- Result record of `extract_bed_bath_from_text`. -/
structure BedBath where
  bedroom : Option Int
  bathroom : Option ℚ

deriving instance DecidableEq, Repr for BedBath

/-- Matcher for a bedroom pattern `(\d+)\s*ALT` at one position: a nonempty
digit run, optional whitespace, then any of the given alternatives as a
prefix (a trailing optional `s` in the source patterns cannot affect
success). -/
def matchBedAt (alts : List (List Char)) (cs : List Char) : Option Nat :=
  let ds := cs.takeWhile (fun c => c.isDigit)
  if ds = [] then none
  else
    let r1 := cs.dropWhile (fun c => c.isDigit)
    let r2 := r1.dropWhile pyIsSpace
    if alts.any (fun a => a.isPrefixOf r2) then some (digitsVal ds) else none

/-- The three bedroom regexes of the source, tried in order:
`(\d+)\s*(?:bd|bedroom|br)s?`, `(\d+)\s*bed`, `(\d+)\s*bd`. -/
def bed_patterns : List (List Char → Option Nat) :=
  [reSearch (matchBedAt ["bd".data, "bedroom".data, "br".data]),
   reSearch (matchBedAt ["bed".data]),
   reSearch (matchBedAt ["bd".data])]

/-- The bedroom pattern loop: assign on the first match found while the
current value is still `None`, then break. -/
def bedLoop : List (List Char → Option Nat) → Option Int → List Char → Option Int
  | [], cur, _ => cur
  | p :: ps, cur, tl =>
    match p tl, cur with
    | some v, none => some (Int.ofNat v)
    | _, _ => bedLoop ps cur tl

/-- Matcher for a bathroom pattern `(\d+(?:\.\d+)?)\s*ALT` at one position.
The fractional part is taken greedily; if the continuation then fails the
matcher backtracks to the integer-only capture, as `re` does. -/
def matchBathAt (alts : List (List Char)) (cs : List Char) : Option ℚ :=
  let ds := cs.takeWhile (fun c => c.isDigit)
  if ds = [] then none
  else
    let r1 := cs.dropWhile (fun c => c.isDigit)
    let contOk : List Char → Bool := fun r =>
      alts.any (fun a => a.isPrefixOf (r.dropWhile pyIsSpace))
    let intOnly : Option ℚ :=
      if contOk r1 then some ((digitsVal ds : ℚ)) else none
    match r1 with
    | '.' :: rest =>
      let fs := rest.takeWhile (fun c => c.isDigit)
      if fs = [] then intOnly
      else if contOk (rest.dropWhile (fun c => c.isDigit)) then
        some ((digitsVal ds : ℚ) + (digitsVal fs : ℚ) / ((10 : ℚ) ^ fs.length))
      else intOnly
    | _ => intOnly

/-- The three bathroom regexes of the source, tried in order:
`(\d+(?:\.\d+)?)\s*(?:ba|bath|bathroom)s?`, `..\s*bath`, `..\s*ba`. -/
def bath_patterns : List (List Char → Option ℚ) :=
  [reSearch (matchBathAt ["ba".data, "bath".data, "bathroom".data]),
   reSearch (matchBathAt ["bath".data]),
   reSearch (matchBathAt ["ba".data])]

/-- The bathroom pattern loop: assign on the first match and break (the
source does not re-check `is None` here). -/
def bathLoop : List (List Char → Option ℚ) → Option ℚ → List Char → Option ℚ
  | [], cur, _ => cur
  | p :: ps, cur, tl =>
    match p tl with
    | some v => some v
    | none => bathLoop ps cur tl

/-- Embedding of `extract_bed_bath_from_text`: empty text keeps both fields
`None`; otherwise the lowered text is scanned — a literal `studio` forces
`bedroom = 0`, then the bedroom and bathroom pattern loops run. -/
def extract_bed_bath_from_text (text : String) : BedBath :=
  if text = "" then ⟨none, none⟩
  else
    let tl := pyLower text.data
    let bed0 : Option Int := if containsSub "studio".data tl then some 0 else none
    ⟨bedLoop bed_patterns bed0 tl, bathLoop bath_patterns none tl⟩

/-! ### `check_pet_friendly` -/

/-- Positive pet phrases scanned first by the source. -/
def pet_positive : List String :=
  ["pets allowed", "pet friendly", "pet-friendly", "pets welcome",
   "pets ok", "pets: yes"]

/-- Negative pet phrases scanned second by the source. -/
def pet_negative : List String :=
  ["no pets", "pets not allowed", "no pets allowed", "pets: no"]

/-- Character class `[:\s]` of the generic pet-capture regex. -/
def petClsA (c : Char) : Bool := c = ':' || pyIsSpace c

/-- Character class `[^<\n\r.]` of the generic pet-capture regex. -/
def petClsB (c : Char) : Bool := !(c = '<' || c = '\n' || c = '\r' || c = '.')

/-- Backtracking over the greedy `[:\s]*` of `pet[s]?[:\s]*([^<\n\r.]{1,50})`:
try consuming `i` separator characters, from the maximal munch downwards, and
capture up to 50 following characters of the capture class (at least one). -/
def petCapA (r1 : List Char) : Nat → Option (List Char)
  | 0 =>
    let j := min 50 (r1.takeWhile petClsB).length
    if j = 0 then none else some (r1.take j)
  | i + 1 =>
    let r2 := r1.drop (i + 1)
    let j := min 50 (r2.takeWhile petClsB).length
    if j = 0 then petCapA r1 i else some (r2.take j)

/-- Match the part after `pet[s]?` of the generic capture regex. -/
def petTail (r1 : List Char) : Option (List Char) :=
  petCapA r1 (r1.takeWhile petClsA).length

/-- Matcher for `pet[s]?[:\s]*([^<\n\r.]{1,50})` anchored at one position,
with the greedy optional `s` tried first. -/
def matchPetAt (cs : List Char) : Option (List Char) :=
  if "pet".data.isPrefixOf cs then
    let rest := cs.drop 3
    match rest with
    | 's' :: rest2 =>
      (match petTail rest2 with
       | some g => some g
       | none => petTail rest)
    | _ => petTail rest
  else none

/-- Embedding of `check_pet_friendly`: scan the lowered page text for a
positive phrase, then a negative phrase, then fall back to the generic
capture after a literal `pet` (title-cased and stripped), else `None`. -/
def check_pet_friendly (page_text : String) : Option String :=
  let tl := pyLower page_text.data
  if pet_positive.any (fun p => containsSub p.data tl) then some "Yes"
  else if pet_negative.any (fun p => containsSub p.data tl) then some "No"
  else if containsSub "pet".data tl then
    match reSearch matchPetAt tl with
    | some g => some (String.mk (pyTitle (pyStrip g)))
    | none => none
  else none

/-! ### `safe_navigate_to_page` -/

/-- Outcome of one `page.goto` attempt followed by the title check: a
Playwright timeout, any other exception, or a loaded page with a title. -/
inductive GotoResult where
  | timeoutErr : GotoResult
  | navErr : GotoResult
  | loaded : String → GotoResult

deriving instance DecidableEq, Repr for GotoResult

/-- The cycled wait strategies of the source. -/
def wait_strategies : List String := ["networkidle", "load", "domcontentloaded"]

/-- Success test of one attempt: the source declares success when the page
produced a non-empty title; a timeout or other exception is a failure. -/
def attemptSucceeds : GotoResult → Bool
  | .loaded t => t.length > 0
  | _ => false

/-- Wait strategy and timeout used on a given attempt:
`wait_strategies[attempt % len(wait_strategies)]` and
`30000 + attempt * 15000` milliseconds. -/
def navParams (attempt : Nat) : String × Nat :=
  (wait_strategies.getD (attempt % wait_strategies.length) "", 30000 + attempt * 15000)

/-- Retry loop of `safe_navigate_to_page` over the remaining attempt
indices.  The environment `env` answers each `page.goto` call, given the
attempt index, the wait strategy used and the timeout used.  Along with the
boolean outcome the model records the `(strategy, timeout)` trace of the
attempts actually made. -/
def navGo (env : Nat → String → Nat → GotoResult) :
    List Nat → List (String × Nat) → Bool × List (String × Nat)
  | [], trace => (false, trace)
  | attempt :: rest, trace =>
    let trace2 := trace ++ [navParams attempt]
    match env attempt (navParams attempt).1 (navParams attempt).2 with
    | .loaded t => if t.length > 0 then (true, trace2) else navGo env rest trace2
    | .timeoutErr => navGo env rest trace2
    | .navErr => navGo env rest trace2

/-- Embedding of `safe_navigate_to_page` with its default of three retries:
returns whether navigation succeeded, plus the attempt trace. -/
def safe_navigate_to_page (env : Nat → String → Nat → GotoResult)
    (max_retries : Nat) : Bool × List (String × Nat) :=
  navGo env (List.range max_retries) []

/-! ### `extract_listing_urls_with_pagination` -/

/-- Abstract content of one index page as seen by the pagination loop:
whether listing links ever appeared within the wait attempts, the `href`
attributes of the listing-link anchors (a `none` is a missing attribute),
whether a usable non-disabled next control was found by the selector
cascade, and whether clicking it and waiting for the load succeeded. -/
structure IndexPage where
  listingsFound : Bool
  hrefs : List (Option String)
  nextEnabled : Bool
  clickOk : Bool

/-- Inner link-collection loop of the source: for each anchor, a truthy
`href` is resolved with `urljoin` and appended to both the page list and the
global list if not already discovered.  Returns the new-on-this-page list
and the updated global list. -/
def addLinks (join : String → String) :
    List (Option String) → List String → List String → List String × List String
  | [], pageUrls, allUrls => (pageUrls, allUrls)
  | none :: rest, pageUrls, allUrls => addLinks join rest pageUrls allUrls
  | some h :: rest, pageUrls, allUrls =>
    if h = "" then addLinks join rest pageUrls allUrls
    else
      let u := join h
      if u ∈ allUrls then addLinks join rest pageUrls allUrls
      else addLinks join rest (pageUrls ++ [u]) (allUrls ++ [u])

/-- The resolved URLs offered by a page, in anchor order, before any
deduplication: this is the discovery stream the walk consumes. -/
def pageLinks (join : String → String) (hrefs : List (Option String)) : List String :=
  hrefs.filterMap (fun h =>
    match h with
    | none => none
    | some s => if s = "" then none else some (join s))

/-- Result of the pagination walk: the collected URL list, the number of
loop iterations performed (index pages visited), and the full discovery
stream of resolved URLs in encounter order. -/
structure WalkResult where
  urls : List String
  pagesVisited : Nat
  stream : List String

/-- Embedding of the `while page_num <= max_pages` loop of
`extract_listing_urls_with_pagination`.  `pages` gives the page content
observed at each iteration; the loop stops when listings never appear, when
a page yields no new URLs, when no enabled next control exists, or when the
click fails — otherwise it recurses with one less unit of fuel. -/
def walkLoop (join : String → String) (pages : Nat → IndexPage) :
    Nat → Nat → List String → Nat → List String → WalkResult
  | 0, _, acc, visited, stream => ⟨acc, visited, stream⟩
  | fuel + 1, idx, acc, visited, stream =>
    let pg := pages idx
    if pg.listingsFound = false then ⟨acc, visited + 1, stream⟩
    else
      let pair := addLinks join pg.hrefs [] acc
      let acc2 := pair.2
      let stream2 := stream ++ pageLinks join pg.hrefs
      if pair.1 = [] then ⟨acc2, visited + 1, stream2⟩
      else if pg.nextEnabled = false then ⟨acc2, visited + 1, stream2⟩
      else if pg.clickOk = false then ⟨acc2, visited + 1, stream2⟩
      else walkLoop join pages fuel (idx + 1) acc2 (visited + 1) stream2

/-- The hard page ceiling of the source. -/
def max_pages : Nat := 20

/-- Embedding of `extract_listing_urls_with_pagination`: start at page 1
with an empty URL list and at most `max_pages` iterations. -/
def extract_listing_urls_with_pagination (join : String → String)
    (pages : Nat → IndexPage) : WalkResult :=
  walkLoop join pages max_pages 1 [] 0 []

/-- Specification-side accumulator used by the spec's dedup property: add a
URL only if it is not already present. -/
def insertNew (acc : List String) (u : String) : List String :=
  if u ∈ acc then acc else acc ++ [u]

/-- First-seen-order deduplication of a discovery stream. -/
def firstSeen (s : List String) : List String := s.foldl insertNew []

/-- A pathological paginated site whose next control is always present,
enabled and clickable, and which offers a fresh URL on every page. -/
def alwaysNextPages (i : Nat) : IndexPage :=
  ⟨true, [some (toString i)], true, true⟩

/-! ### Data model and MongoDB persistence -/

/-- The `amenities` sub-record of `ListingData`. -/
structure Amenities where
  appliances : List String
  utilities_included : List String
  other_amenities : List String

deriving instance DecidableEq, Repr for Amenities

/-- Embedding of the `ListingData` dataclass.  `bathroom` is modelled as a
rational (Python stores a float), `rental_terms` as an association list of
term name to text, and `scraped_at` as an opaque timestamp string. -/
structure ListingData where
  title : String := ""
  address : String := ""
  price : Option Int := none
  bedroom : Option Int := none
  bathroom : Option ℚ := none
  description : String := ""
  rental_terms : List (String × String) := []
  amenities : Amenities := ⟨[], [], []⟩
  pet_friendly : Option String := none
  listing_url : String := ""
  scraped_at : String := ""

deriving instance DecidableEq, Repr for ListingData

/-- BSON-style values stored in a document. -/
inductive Value where
  | str : String → Value
  | intv : Int → Value
  | ratv : ℚ → Value
  | null : Value
  | arr : List Value → Value
  | obj : List (String × Value) → Value

/-- A stored document: an association list of field name to value, in
insertion order, mirroring a Python dict. -/
abbrev Doc := List (String × Value)

/-- The collection: documents keyed by their `_id` string.  MongoDB keeps
`_id` unique; the model does not assume that and states it where needed. -/
abbrev Store := List (String × Doc)

/-- First binding of a field in a document. -/
def getField (d : Doc) (k : String) : Option Value :=
  match d with
  | [] => none
  | (k2, v) :: rest => if k2 = k then some v else getField rest k

/-- Set one field of a document, replacing an existing binding in place or
appending a new one. -/
def setField (d : Doc) (k : String) (v : Value) : Doc :=
  match d with
  | [] => [(k, v)]
  | (k2, v2) :: rest => if k2 = k then (k, v) :: rest else (k2, v2) :: setField rest k v

/-- MongoDB `$set` with a payload document: set every payload field. -/
def setFields (d : Doc) (payload : Doc) : Doc :=
  payload.foldl (fun acc kv => setField acc kv.1 kv.2) d

/-- `pymongo.ReplaceOne({'_id': k}, payload, upsert=True)`: replace the
first document keyed `k`, or append when no document matches. -/
def replaceUpsert (store : Store) (k : String) (payload : Doc) : Store :=
  match store with
  | [] => [(k, payload)]
  | (k2, d) :: rest =>
    if k2 = k then (k, payload) :: rest else (k2, d) :: replaceUpsert rest k payload

/-- `pymongo.UpdateOne({'_id': k}, {'$set': payload}, upsert=True)`: apply
`$set` to the first document keyed `k`, or insert the payload when no
document matches. -/
def updateSetUpsert (store : Store) (k : String) (payload : Doc) : Store :=
  match store with
  | [] => [(k, payload)]
  | (k2, d) :: rest =>
    if k2 = k then (k, setFields d payload) :: rest else (k2, d) :: updateSetUpsert rest k payload

/-- First document stored under a key. -/
def storeLookup (store : Store) (k : String) : Option Doc :=
  match store with
  | [] => none
  | (k2, d) :: rest => if k2 = k then some d else storeLookup rest k

/-- Number of documents stored under a key. -/
def keyCount (store : Store) (k : String) : Nat :=
  store.countP (fun e => e.1 == k)

/-- Field of the document stored first under a key. -/
def getFieldAt (store : Store) (k : String) (f : String) : Option Value :=
  (storeLookup store k).bind (fun d => getField d f)

/-- Document id derived by the source: `f"tulire_{hash(listing.listing_url)}"`.
Python string hashing is process-randomized, so the hash is a parameter; the
id depends on nothing but `listing_url`. -/
def docId (pyhash : String → Int) (url : String) : String :=
  "tulire_" ++ toString (pyhash url)

/-- Optional value embedding for nullable numeric fields. -/
def optIntV : Option Int → Value
  | none => .null
  | some n => .intv n

/-- Optional value embedding for the nullable bathroom field. -/
def optRatV : Option ℚ → Value
  | none => .null
  | some q => .ratv q

/-- Optional value embedding for the nullable pet-policy field. -/
def optStrV : Option String → Value
  | none => .null
  | some s => .str s

/-- The payload dict built for one listing by `save_to_mongodb_batch`:
`asdict(listing)` followed by the `_id`, `source` and `last_updated`
assignments. -/
def listingDict (pyhash : String → Int) (now : String) (l : ListingData) : Doc :=
  [("title", .str l.title),
   ("address", .str l.address),
   ("price", optIntV l.price),
   ("bedroom", optIntV l.bedroom),
   ("bathroom", optRatV l.bathroom),
   ("description", .str l.description),
   ("rental_terms", .obj (l.rental_terms.map (fun p => (p.1, Value.str p.2)))),
   ("amenities", .obj
     [("appliances", .arr (l.amenities.appliances.map Value.str)),
      ("utilities_included", .arr (l.amenities.utilities_included.map Value.str)),
      ("other_amenities", .arr (l.amenities.other_amenities.map Value.str))]),
   ("pet_friendly", optStrV l.pet_friendly),
   ("listing_url", .str l.listing_url),
   ("scraped_at", .str l.scraped_at),
   ("_id", .str (docId pyhash l.listing_url)),
   ("source", .str "tulire_realty"),
   ("last_updated", .str now)]

/-- One bulk operation of `save_to_mongodb_batch`: a `ReplaceOne` when
`overwrite_data` is set, else an `UpdateOne` with `$set`, both upserting on
the derived `_id`. -/
def applyListing (overwrite_data : Bool) (pyhash : String → Int) (now : String)
    (store : Store) (l : ListingData) : Store :=
  let pid := docId pyhash l.listing_url
  let payload := listingDict pyhash now l
  if overwrite_data then replaceUpsert store pid payload
  else updateSetUpsert store pid payload

/-- Embedding of `save_to_mongodb_batch`: the bulk write applies the per-
listing operations in order; an empty batch writes nothing. -/
def save_to_mongodb_batch (overwrite_data : Bool) (pyhash : String → Int)
    (now : String) (store : Store) (listings : List ListingData) : Store :=
  listings.foldl (applyListing overwrite_data pyhash now) store

/-! ### Batching loop of `scrape_all_listings` -/

/-- Persistence state of the scraping loop: batches handed to
`save_to_mongodb_batch` so far, the current buffer, and the valid listings
collected. -/
structure BatchState where
  handed : List (List ListingData)
  current : List ListingData
  allListings : List ListingData

/-- One iteration of the scraping loop for an already-scraped record: the
compulsory-data gate admits the record only when both title and address are
non-empty; a full buffer is handed to the persister (when saving is on) and
cleared. -/
def processListing (save_to_db : Bool) (batch_size : Nat)
    (st : BatchState) (l : ListingData) : BatchState :=
  if l.title ≠ "" ∧ l.address ≠ "" then
    let cb := st.current ++ [l]
    let al := st.allListings ++ [l]
    if batch_size ≤ cb.length then
      ⟨st.handed ++ (if save_to_db then [cb] else []), [], al⟩
    else
      ⟨st.handed, cb, al⟩
  else st

/-- Embedding of the batching behavior of `scrape_all_listings` on the
sequence of scraped records: fold the loop body, then hand over the final
partial batch when non-empty and saving is on. -/
def scrape_all_listings_batches (save_to_db : Bool) (batch_size : Nat)
    (scraped : List ListingData) : BatchState :=
  let st := scraped.foldl (processListing save_to_db batch_size) ⟨[], [], []⟩
  if st.current ≠ [] ∧ save_to_db then ⟨st.handed ++ [st.current], st.current, st.allListings⟩
  else st

/-- Batch-state invariant used for the compulsory-data gate: every record in
a handed batch and in the current buffer has non-empty title and address. -/
def gateInv (st : BatchState) : Prop :=
  (∀ b ∈ st.handed, ∀ l ∈ b, l.title ≠ "" ∧ l.address ≠ "") ∧
  (∀ l ∈ st.current, l.title ≠ "" ∧ l.address ≠ "")

/-! ### `generate_summary_report` and the end of `main` -/

/-- Data-completeness percentages of the report, as exact rationals (the
source computes Python floats). -/
structure Completeness where
  title : ℚ
  price : ℚ
  bedroom : ℚ
  bathroom : ℚ
  description : ℚ
  rental_terms : ℚ
  pet_info : ℚ

/-- The `price_analysis` sub-dict of the report. -/
structure PriceStats where
  min : Int
  max : Int
  avg : Int
  median : Int

/-- Return value of `generate_summary_report`: the bare empty dict for an
empty input, otherwise the populated report dict. -/
inductive SummaryReport where
  | emptyDict : SummaryReport
  | report : Nat → String → Completeness → Option PriceStats →
      List (Int × Nat) → Nat → Nat → Nat → SummaryReport

/-- Stable ascending insertion matching Python `sorted` on integers. -/
def insertSorted (x : Int) : List Int → List Int
  | [] => [x]
  | y :: ys => if x ≤ y then x :: y :: ys else y :: insertSorted x ys

/-- Sort a list of integers ascending, as Python `sorted`. -/
def sortInts (l : List Int) : List Int := l.foldr insertSorted []

/-- Increment the count of a key in the bedroom-distribution dict. -/
def bumpCount : List (Int × Nat) → Int → List (Int × Nat)
  | [], b => [(b, 1)]
  | (k, n) :: rest, b =>
    if k = b then (k, n + 1) :: rest else (k, n) :: bumpCount rest b

/-- Truthiness of the `price` field as used by `if l.price`. -/
def priceTruthy (l : ListingData) : Bool :=
  match l.price with
  | some p => p ≠ 0
  | none => false

/-- Truthiness of the `pet_friendly` field as used by `if l.pet_friendly`. -/
def petTruthy (l : ListingData) : Bool :=
  match l.pet_friendly with
  | some s => s ≠ ""
  | none => false

/-- Percentage of listings satisfying a predicate. -/
def pct (listings : List ListingData) (p : ListingData → Bool) : ℚ :=
  ((listings.countP p : ℚ) / (listings.length : ℚ)) * 100

/-- Embedding of `generate_summary_report`: an empty listing list returns
the empty dict; otherwise price statistics (truthy prices only), bedroom
distribution (explicit values only), pet-policy counts and completeness
percentages are assembled. -/
def generate_summary_report (overwrite_data : Bool)
    (listings : List ListingData) : SummaryReport :=
  if listings = [] then .emptyDict
  else
    let total := listings.length
    let prices := listings.filterMap (fun l =>
      match l.price with
      | some p => if p ≠ 0 then some p else none
      | none => none)
    let price_stats : Option PriceStats :=
      match prices with
      | [] => none
      | q :: qs =>
        some ⟨(qs.foldl min q), (qs.foldl max q),
          Int.fdiv ((q :: qs).foldl (· + ·) 0) ((q :: qs).length : Int),
          (sortInts (q :: qs)).getD ((q :: qs).length / 2) 0⟩
    let bedrooms := listings.filterMap (fun l => l.bedroom)
    let bedroom_counts := bedrooms.foldl bumpCount []
    let pet_yes := listings.countP (fun l => l.pet_friendly == some "Yes")
    let pet_no := listings.countP (fun l => l.pet_friendly == some "No")
    .report total (if overwrite_data then "OVERWRITE" else "UPDATE")
      ⟨pct listings (fun l => l.title ≠ ""),
       pct listings priceTruthy,
       pct listings (fun l => l.bedroom.isSome),
       pct listings (fun l => l.bathroom.isSome),
       pct listings (fun l => l.description ≠ ""),
       pct listings (fun l => l.rental_terms ≠ []),
       pct listings petTruthy⟩
      price_stats bedroom_counts pet_yes pet_no (total - pet_yes - pet_no)

/-- Total-listings field of a report, absent for the empty dict. -/
def reportTotal : SummaryReport → Option Nat
  | .emptyDict => none
  | .report t _ _ _ _ _ _ _ => some t

deriving instance DecidableEq for Completeness
deriving instance DecidableEq for PriceStats
deriving instance DecidableEq for SummaryReport

/-- Outcome of the tail of `main` after scraping: a zero-listings run prints
the distinct no-listings message and returns before any report is built; a
non-empty run proceeds to the summary report. -/
inductive RunOutcome where
  | noListings : RunOutcome
  | completed : SummaryReport → RunOutcome

/-- Concrete hash used to instantiate the persistence theorems. -/
def pyhash0 : String → Int := fun _ => 0

/-- Sample record used to instantiate the persistence theorems. -/
def sampleA : ListingData := { title := "A", address := "x", listing_url := "u" }

/-- Second sample record with the same source URL as `sampleA`. -/
def sampleB : ListingData := { title := "B", address := "y", listing_url := "u" }

deriving instance DecidableEq for RunOutcome

/-- Embedding of the post-scrape control flow of `main`. -/
def mainOutcome (overwrite_data : Bool) (listings : List ListingData) : RunOutcome :=
  if listings = [] then .noListings
  else .completed (generate_summary_report overwrite_data listings)

end Scraper

section ScenarioChecks

/-!
Concrete scenario checks, mirroring the executable scenarios listed in the
specification: extraction on sample page texts, the overlapping-pages
pagination walk, the exhausted navigation retry, batch flushing at the
configured size, and idempotent persistence of a repeated source URL.
-/

open Scraper

example : extract_price_from_text "$1,950/mo" = some 1950 := by decide
example : extract_price_from_text "" = none := by decide
example : extract_price_from_text "no digits here" = none := by decide
example : extract_bed_bath_from_text "2 bd / 1 ba" = ⟨some 2, some 1⟩ := by decide
example : (extract_bed_bath_from_text "2 bd / 1.5 ba").bedroom = some 2 := by decide
example : (extract_bed_bath_from_text "2 bd / 1.5 ba").bathroom.isSome = true := by decide
example : extract_bed_bath_from_text "Studio apartment, no pets allowed" = ⟨some 0, none⟩ := by decide
example : extract_bed_bath_from_text "Studio with 3 bd" = ⟨some 0, none⟩ := by decide
example : check_pet_friendly "Studio apartment, no pets allowed" = some "Yes" := by decide
example : check_pet_friendly "unfortunately, pets not allowed here" = some "No" := by decide
example : check_pet_friendly "pet deposit required" = some "Deposit Required" := by decide
example : (extract_listing_urls_with_pagination id alwaysNextPages).pagesVisited = 20 := by decide
example : (extract_listing_urls_with_pagination id alwaysNextPages).urls.length = 20 := by decide
example :
    (extract_listing_urls_with_pagination id
      (fun i => if i = 1 then ⟨true, [some "A", some "B"], true, true⟩
        else if i = 2 then ⟨true, [some "B", some "C"], true, true⟩
        else ⟨true, [], true, true⟩)).urls = ["A", "B", "C"] := by decide
example : (safe_navigate_to_page (fun _ _ _ => .timeoutErr) 3).1 = false := by decide
example :
    (safe_navigate_to_page (fun _ _ _ => .timeoutErr) 3).2 =
      [("networkidle", 30000), ("load", 45000), ("domcontentloaded", 60000)] := by decide
example : (safe_navigate_to_page (fun _ _ _ => .loaded "ok") 3).2 = [("networkidle", 30000)] := by decide
example :
    (scrape_all_listings_batches true 2
      [{ title := "R1", address := "a1", listing_url := "u1" },
       { title := "R2", address := "a2", listing_url := "u2" },
       { title := "R3", address := "a3", listing_url := "u3" }]).handed =
    [[{ title := "R1", address := "a1", listing_url := "u1" },
      { title := "R2", address := "a2", listing_url := "u2" }],
     [{ title := "R3", address := "a3", listing_url := "u3" }]] := by decide
example :
    (scrape_all_listings_batches true 2
      [{ title := "", address := "a1", listing_url := "u1" },
       { title := "R2", address := "a2", listing_url := "u2" }]).handed =
    [[{ title := "R2", address := "a2", listing_url := "u2" }]] := by decide
example : generate_summary_report true [] = .emptyDict := by decide
example : mainOutcome true [] = .noListings := by decide
example :
    keyCount
      (save_to_mongodb_batch true (fun _ => 7) "t2"
        (save_to_mongodb_batch true (fun _ => 7) "t1" []
          [{ title := "A", address := "x", listing_url := "u" }])
        [{ title := "B", address := "y", listing_url := "u" }])
      (docId (fun _ => 7) "u") = 1 := by decide
example :
    getFieldAt
      (save_to_mongodb_batch false (fun _ => 7) "t2"
        [(docId (fun _ => 7) "u", [("extra", Value.str "keep")])]
        [{ title := "B", address := "y", listing_url := "u" }])
      (docId (fun _ => 7) "u") "extra" = some (Value.str "keep") := rfl

end ScenarioChecks

namespace Scraper

/-! ### Supporting lemmas -/

theorem bedLoop_some (ps : List (List Char → Option Nat)) (b : Int) (tl : List Char) :
    bedLoop ps (some b) tl = some b := by
  induction ps with
  | nil => rfl
  | cons p ps ih =>
    cases h : p tl with
    | none => simp [bedLoop, h, ih]
    | some v => simp [bedLoop, h, ih]

theorem processListing_gateInv (save_to_db : Bool) (batch_size : Nat)
    (st : BatchState) (l : ListingData) (h : gateInv st) :
    gateInv (processListing save_to_db batch_size st l) := by
  obtain ⟨hh, hc⟩ := h
  unfold processListing
  by_cases hg : l.title ≠ "" ∧ l.address ≠ ""
  · rw [if_pos hg]
    by_cases hfull : batch_size ≤ (st.current ++ [l]).length
    · rw [if_pos hfull]
      refine ⟨?_, by simp⟩
      intro b hb
      rcases List.mem_append.mp hb with hb1 | hb2
      · exact hh b hb1
      · intro x hx
        rcases save_to_db with _ | _
        · simp at hb2
        · simp at hb2
          subst hb2
          rcases List.mem_append.mp hx with hx1 | hx2
          · exact hc x hx1
          · simp at hx2; subst hx2; exact hg
    · rw [if_neg hfull]
      refine ⟨hh, ?_⟩
      intro x hx
      rcases List.mem_append.mp hx with hx1 | hx2
      · exact hc x hx1
      · simp at hx2; subst hx2; exact hg
  · rw [if_neg hg]; exact ⟨hh, hc⟩

theorem foldl_gateInv (save_to_db : Bool) (batch_size : Nat) :
    ∀ (ls : List ListingData) (st : BatchState), gateInv st →
      gateInv (ls.foldl (processListing save_to_db batch_size) st) := by
  intro ls
  induction ls with
  | nil => intro st h; exact h
  | cons l ls ih =>
    intro st h
    exact ih _ (processListing_gateInv save_to_db batch_size st l h)

theorem navGo_spec (env : Nat → String → Nat → GotoResult) :
    ∀ (atts : List Nat) (tr : List (String × Nat)),
      ∃ m, m ≤ atts.length ∧
        (navGo env atts tr).2 = tr ++ (atts.take m).map navParams ∧
        ((∀ a ∈ atts,
            attemptSucceeds (env a (navParams a).1 (navParams a).2) = false) →
          (navGo env atts tr).1 = false) := by
  intro atts
  induction atts with
  | nil =>
    intro tr
    exact ⟨0, by simp [navGo]⟩
  | cons a rest ih =>
    intro tr
    have hgo : navGo env (a :: rest) tr =
        match env a (navParams a).1 (navParams a).2 with
        | .loaded t =>
          if t.length > 0 then (true, tr ++ [navParams a])
          else navGo env rest (tr ++ [navParams a])
        | .timeoutErr => navGo env rest (tr ++ [navParams a])
        | .navErr => navGo env rest (tr ++ [navParams a]) := rfl
    cases henv : env a (navParams a).1 (navParams a).2 with
    | loaded t =>
      by_cases ht : t.length > 0
      · refine ⟨1, by simp, ?_, ?_⟩
        · rw [hgo, henv]; simp [ht]
        · intro hall
          have := hall a (by simp)
          rw [henv] at this
          simp [attemptSucceeds, ht] at this
      · obtain ⟨m, hm, htr, hfail⟩ := ih (tr ++ [navParams a])
        refine ⟨m + 1, by simpa using hm, ?_, ?_⟩
        · rw [hgo, henv]; simp only [ht, if_false]
          rw [htr]; simp
        · intro hall
          have h2 := hfail (fun b hb => hall b (by simp [hb]))
          rw [hgo, henv]; simpa [ht] using h2
    | timeoutErr =>
      obtain ⟨m, hm, htr, hfail⟩ := ih (tr ++ [navParams a])
      refine ⟨m + 1, by simpa using hm, ?_, ?_⟩
      · rw [hgo, henv, htr]; simp
      · intro hall
        have h2 := hfail (fun b hb => hall b (by simp [hb]))
        rw [hgo, henv]; exact h2
    | navErr =>
      obtain ⟨m, hm, htr, hfail⟩ := ih (tr ++ [navParams a])
      refine ⟨m + 1, by simpa using hm, ?_, ?_⟩
      · rw [hgo, henv, htr]; simp
      · intro hall
        have h2 := hfail (fun b hb => hall b (by simp [hb]))
        rw [hgo, henv]; exact h2

theorem walkLoop_visited (join : String → String) (pages : Nat → IndexPage) :
    ∀ (fuel idx : Nat) (acc : List String) (visited : Nat) (stream : List String),
      (walkLoop join pages fuel idx acc visited stream).pagesVisited ≤ visited + fuel := by
  intro fuel
  induction fuel with
  | zero =>
    intro idx acc visited stream
    simp [walkLoop]
  | succ fuel ih =>
    intro idx acc visited stream
    rw [walkLoop]
    by_cases h1 : (pages idx).listingsFound = false
    · simp [h1]
    · rw [if_neg h1]
      by_cases h2 : (addLinks join (pages idx).hrefs [] acc).1 = []
      · simp only [h2, if_true]; simp
      · rw [if_neg h2]
        by_cases h3 : (pages idx).nextEnabled = false
        · simp only [h3, if_true]; simp
        · rw [if_neg h3]
          by_cases h4 : (pages idx).clickOk = false
          · simp only [h4, if_true]; simp
          · rw [if_neg h4]
            have := ih (idx + 1) (addLinks join (pages idx).hrefs [] acc).2 (visited + 1)
              (stream ++ pageLinks join (pages idx).hrefs)
            omega

theorem mem_insertNew (acc : List String) (u v : String) :
    v ∈ insertNew acc u ↔ v ∈ acc ∨ v = u := by
  unfold insertNew
  by_cases h : u ∈ acc
  · rw [if_pos h]
    constructor
    · exact Or.inl
    · rintro (hv | rfl)
      · exact hv
      · exact h
  · rw [if_neg h]; simp

theorem mem_foldl_insertNew :
    ∀ (s acc : List String) (v : String),
      v ∈ s.foldl insertNew acc ↔ v ∈ acc ∨ v ∈ s := by
  intro s
  induction s with
  | nil => intro acc v; simp
  | cons u s ih =>
    intro acc v
    rw [List.foldl_cons, ih, mem_insertNew]
    simp
    tauto

theorem nodup_insertNew (acc : List String) (u : String) (h : acc.Nodup) :
    (insertNew acc u).Nodup := by
  unfold insertNew
  by_cases hu : u ∈ acc
  · rwa [if_pos hu]
  · rw [if_neg hu]
    simp [List.nodup_append, h, hu]

theorem nodup_foldl_insertNew :
    ∀ (s acc : List String), acc.Nodup → (s.foldl insertNew acc).Nodup := by
  intro s
  induction s with
  | nil => intro acc h; exact h
  | cons u s ih =>
    intro acc h
    exact ih _ (nodup_insertNew acc u h)

theorem mem_firstSeen (s : List String) (v : String) : v ∈ firstSeen s ↔ v ∈ s := by
  have := mem_foldl_insertNew s [] v
  simpa [firstSeen] using this

theorem nodup_firstSeen (s : List String) : (firstSeen s).Nodup :=
  nodup_foldl_insertNew s [] (by simp)

theorem firstSeen_append_singleton (s : List String) (u : String) :
    firstSeen (s ++ [u]) = insertNew (firstSeen s) u := by
  unfold firstSeen
  rw [List.foldl_append]
  rfl

theorem pairwise_firstSeen (s : List String) :
    List.Pairwise (fun u v => s.indexOf u < s.indexOf v) (firstSeen s) := by
  induction s using List.reverseRecOn with
  | nil => simp [firstSeen]
  | append_singleton s u ih =>
    rw [firstSeen_append_singleton, insertNew]
    by_cases hu : u ∈ firstSeen s
    · rw [if_pos hu]
      refine ih.imp_of_mem ?_
      intro a b ha hb hab
      have ha2 : a ∈ s := (mem_firstSeen s a).mp ha
      have hb2 : b ∈ s := (mem_firstSeen s b).mp hb
      rwa [List.indexOf_append_of_mem ha2, List.indexOf_append_of_mem hb2]
    · rw [if_neg hu]
      have hus : u ∉ s := fun hs => hu ((mem_firstSeen s u).mpr hs)
      rw [List.pairwise_append]
      refine ⟨?_, by simp, ?_⟩
      · refine ih.imp_of_mem ?_
        intro a b ha hb hab
        have ha2 : a ∈ s := (mem_firstSeen s a).mp ha
        have hb2 : b ∈ s := (mem_firstSeen s b).mp hb
        rwa [List.indexOf_append_of_mem ha2, List.indexOf_append_of_mem hb2]
      · intro a ha b hb
        have hb2 : b = u := by simpa using hb
        subst hb2
        have ha2 : a ∈ s := (mem_firstSeen s a).mp ha
        rw [List.indexOf_append_of_mem ha2, List.indexOf_append_of_not_mem hus]
        have h1 : s.indexOf a < s.length := List.indexOf_lt_length.mpr ha2
        simp
        omega

theorem addLinks_snd (join : String → String) :
    ∀ (hrefs : List (Option String)) (pu acc : List String),
      (addLinks join hrefs pu acc).2 = (pageLinks join hrefs).foldl insertNew acc := by
  intro hrefs
  induction hrefs with
  | nil => intro pu acc; simp [addLinks, pageLinks]
  | cons h rest ih =>
    intro pu acc
    cases h with
    | none => simpa [addLinks, pageLinks] using ih pu acc
    | some hs =>
      by_cases he : hs = ""
      · subst he
        simpa [addLinks, pageLinks] using ih pu acc
      · by_cases hmem : join hs ∈ acc
        · rw [addLinks]
          rw [if_neg he, if_pos hmem]
          have hp : pageLinks join (some hs :: rest) = join hs :: pageLinks join rest := by
            simp [pageLinks, he]
          rw [hp, List.foldl_cons]
          have : insertNew acc (join hs) = acc := by rw [insertNew, if_pos hmem]
          rw [this, ih]
        · rw [addLinks]
          rw [if_neg he, if_neg hmem]
          have hp : pageLinks join (some hs :: rest) = join hs :: pageLinks join rest := by
            simp [pageLinks, he]
          rw [hp, List.foldl_cons]
          have : insertNew acc (join hs) = acc ++ [join hs] := by rw [insertNew, if_neg hmem]
          rw [this, ih]

theorem walkLoop_firstSeen (join : String → String) (pages : Nat → IndexPage) :
    ∀ (fuel idx : Nat) (acc : List String) (visited : Nat) (stream : List String),
      acc = firstSeen stream →
      (walkLoop join pages fuel idx acc visited stream).urls =
        firstSeen (walkLoop join pages fuel idx acc visited stream).stream := by
  intro fuel
  induction fuel with
  | zero =>
    intro idx acc visited stream h
    simpa [walkLoop] using h
  | succ fuel ih =>
    intro idx acc visited stream h
    have hstep : (addLinks join (pages idx).hrefs [] acc).2 =
        firstSeen (stream ++ pageLinks join (pages idx).hrefs) := by
      rw [addLinks_snd, h]
      unfold firstSeen
      rw [List.foldl_append]
    rw [walkLoop]
    by_cases h1 : (pages idx).listingsFound = false
    · simpa [h1] using h
    · rw [if_neg h1]
      by_cases h2 : (addLinks join (pages idx).hrefs [] acc).1 = []
      · simpa [h2] using hstep
      · rw [if_neg h2]
        by_cases h3 : (pages idx).nextEnabled = false
        · simpa [h3] using hstep
        · rw [if_neg h3]
          by_cases h4 : (pages idx).clickOk = false
          · simpa [h4] using hstep
          · rw [if_neg h4]
            exact ih (idx + 1) _ (visited + 1) _ hstep

theorem takeWhile_priceCls_of_no_comma :
    ∀ (cs : List Char), (∀ c ∈ cs, c ≠ ',') →
      cs.takeWhile isPriceCls = cs.takeWhile (fun c => c.isDigit) := by
  intro cs
  induction cs with
  | nil => intro _; rfl
  | cons c cs ih =>
    intro hno
    have hc : c ≠ ',' := hno c (by simp)
    have hcs : ∀ x ∈ cs, x ≠ ',' := fun x hx => hno x (by simp [hx])
    by_cases hd : c.isDigit
    · rw [List.takeWhile_cons_of_pos (by simp [isPriceCls, hd]),
        List.takeWhile_cons_of_pos (by simp [hd]), ih hcs]
    · rw [List.takeWhile_cons_of_neg (by simp [isPriceCls, hd, hc]),
        List.takeWhile_cons_of_neg (by simp [hd])]

theorem filter_comma_takeWhile_digit (cs : List Char) :
    (cs.takeWhile (fun c => c.isDigit)).filter (fun c => c ≠ ',') =
      cs.takeWhile (fun c => c.isDigit) := by
  rw [List.filter_eq_self]
  intro a ha
  have hd : a.isDigit := List.mem_takeWhile_imp ha
  simp only [decide_eq_true_eq]
  intro hcomma
  subst hcomma
  simp [Char.isDigit] at hd

theorem priceGroup_digit (cs : List Char) (hno : ∀ c ∈ cs, c ≠ ',')
    (hd : cs.takeWhile (fun x => x.isDigit) ≠ []) :
    priceGroup cs = some (digitsVal (cs.takeWhile (fun x => x.isDigit))) := by
  unfold priceGroup
  rw [takeWhile_priceCls_of_no_comma cs hno]
  rw [if_neg hd, filter_comma_takeWhile_digit]

theorem priceGroup_no_digit (cs : List Char) (hno : ∀ c ∈ cs, c ≠ ',')
    (hd : cs.takeWhile (fun x => x.isDigit) = []) :
    priceGroup cs = none := by
  unfold priceGroup
  rw [takeWhile_priceCls_of_no_comma cs hno, if_pos hd]

theorem reSearch_price_eq_firstDigitRun :
    ∀ (cs : List Char), (∀ c ∈ cs, c ≠ ',') →
      reSearch matchPriceAt cs = firstDigitRun cs := by
  intro cs
  induction cs with
  | nil => intro _; rfl
  | cons c cs ih =>
    intro hno
    have hc : c ≠ ',' := hno c (by simp)
    have hcs : ∀ x ∈ cs, x ≠ ',' := fun x hx => hno x (by simp [hx])
    by_cases hd : c.isDigit
    · have hcd : c ≠ '$' := by
        intro h; subst h; simp [Char.isDigit] at hd
      have hg := priceGroup_digit (c :: cs) hno
        (by rw [List.takeWhile_cons_of_pos hd]; simp)
      rw [reSearch, matchPriceAt, if_neg hcd, hg]
      rw [firstDigitRun, if_pos hd]
    · by_cases hds : c = '$'
      · subst hds
        rw [reSearch, matchPriceAt, if_pos rfl]
        rw [firstDigitRun, if_neg hd]
        cases cs with
        | nil => rfl
        | cons d cs2 =>
          by_cases hd2 : d.isDigit
          · have hg := priceGroup_digit (d :: cs2) hcs
              (by rw [List.takeWhile_cons_of_pos hd2]; simp)
            rw [hg, firstDigitRun, if_pos hd2]
          · have hg := priceGroup_no_digit (d :: cs2) hcs
              (by rw [List.takeWhile_cons_of_neg hd2])
            rw [hg]
            exact ih hcs
      · have hg : priceGroup (c :: cs) = none :=
          priceGroup_no_digit (c :: cs) hno
            (by rw [List.takeWhile_cons_of_neg hd])
        rw [reSearch, matchPriceAt, if_neg hds, hg]
        rw [firstDigitRun, if_neg hd]
        exact ih hcs

theorem firstDigitRun_eq_none_iff :
    ∀ (cs : List Char), firstDigitRun cs = none ↔ ∀ c ∈ cs, c.isDigit = false := by
  intro cs
  induction cs with
  | nil => simp [firstDigitRun]
  | cons c cs ih =>
    by_cases hd : c.isDigit
    · rw [firstDigitRun, if_pos hd]
      simp [hd]
    · rw [firstDigitRun, if_neg hd]
      rw [ih]
      constructor
      · intro h x hx
        rcases List.mem_cons.mp hx with rfl | hx2
        · simpa using hd
        · exact h x hx2
      · intro h x hx
        exact h x (by simp [hx])

theorem keyCount_replaceUpsert :
    ∀ (store : Store) (k : String) (p : Doc),
      keyCount (replaceUpsert store k p) k = max 1 (keyCount store k) := by
  intro store
  induction store with
  | nil => intro k p; simp [replaceUpsert, keyCount]
  | cons e rest ih =>
    intro k p
    obtain ⟨k2, d⟩ := e
    by_cases hk : k2 = k
    · subst hk
      simp [replaceUpsert, keyCount, List.countP_cons]
    · rw [replaceUpsert, if_neg hk]
      simp only [keyCount, List.countP_cons] at *
      simp [hk, ih]

theorem keyCount_updateSetUpsert :
    ∀ (store : Store) (k : String) (p : Doc),
      keyCount (updateSetUpsert store k p) k = max 1 (keyCount store k) := by
  intro store
  induction store with
  | nil => intro k p; simp [updateSetUpsert, keyCount]
  | cons e rest ih =>
    intro k p
    obtain ⟨k2, d⟩ := e
    by_cases hk : k2 = k
    · subst hk
      simp [updateSetUpsert, keyCount, List.countP_cons]
    · rw [updateSetUpsert, if_neg hk]
      simp only [keyCount, List.countP_cons] at *
      simp [hk, ih]

theorem storeLookup_replaceUpsert :
    ∀ (store : Store) (k : String) (p : Doc),
      storeLookup (replaceUpsert store k p) k = some p := by
  intro store
  induction store with
  | nil => intro k p; simp [replaceUpsert, storeLookup]
  | cons e rest ih =>
    intro k p
    obtain ⟨k2, d⟩ := e
    by_cases hk : k2 = k
    · subst hk
      simp [replaceUpsert, storeLookup]
    · rw [replaceUpsert, if_neg hk, storeLookup, if_neg hk]
      exact ih k p

theorem updateSetUpsert_found :
    ∀ (pre : Store) (post : Store) (k : String) (d : Doc) (p : Doc),
      (∀ e ∈ pre, e.1 ≠ k) →
      updateSetUpsert (pre ++ (k, d) :: post) k p =
        pre ++ (k, setFields d p) :: post := by
  intro pre
  induction pre with
  | nil => intro post k d p _; simp [updateSetUpsert]
  | cons e rest ih =>
    intro post k d p hpre
    obtain ⟨k2, d2⟩ := e
    have hk2 : k2 ≠ k := hpre (k2, d2) (by simp)
    have hrest : ∀ e ∈ rest, e.1 ≠ k := fun e he => hpre e (by simp [he])
    rw [List.cons_append, updateSetUpsert, if_neg hk2, ih post k d p hrest]
    simp

theorem storeLookup_found :
    ∀ (pre : Store) (post : Store) (k : String) (d : Doc),
      (∀ e ∈ pre, e.1 ≠ k) →
      storeLookup (pre ++ (k, d) :: post) k = some d := by
  intro pre
  induction pre with
  | nil => intro post k d _; simp [storeLookup]
  | cons e rest ih =>
    intro post k d hpre
    obtain ⟨k2, d2⟩ := e
    have hk2 : k2 ≠ k := hpre (k2, d2) (by simp)
    have hrest : ∀ e ∈ rest, e.1 ≠ k := fun e he => hpre e (by simp [he])
    rw [List.cons_append, storeLookup, if_neg hk2]
    exact ih post k d hrest

theorem getField_setField_ne :
    ∀ (d : Doc) (k2 k : String) (v : Value), k2 ≠ k →
      getField (setField d k2 v) k = getField d k := by
  intro d
  induction d with
  | nil => intro k2 k v h; simp [setField, getField, h]
  | cons e rest ih =>
    intro k2 k v h
    obtain ⟨k3, v3⟩ := e
    by_cases hk3 : k3 = k2
    · subst hk3
      rw [setField, if_pos rfl, getField, getField, if_neg h, if_neg h]
    · rw [setField, if_neg hk3, getField, getField]
      by_cases hk3k : k3 = k
      · rw [if_pos hk3k, if_pos hk3k]
      · rw [if_neg hk3k, if_neg hk3k]
        exact ih k2 k v h

theorem getField_eq_none_imp :
    ∀ (d : Doc) (k : String), getField d k = none → ∀ e ∈ d, e.1 ≠ k := by
  intro d
  induction d with
  | nil => intro k _ e he; simp at he
  | cons e2 rest ih =>
    intro k hnone e he
    obtain ⟨k2, v2⟩ := e2
    rw [getField] at hnone
    by_cases hk2 : k2 = k
    · rw [if_pos hk2] at hnone; exact absurd hnone (by simp)
    · rw [if_neg hk2] at hnone
      rcases List.mem_cons.mp he with rfl | he2
      · exact hk2
      · exact ih k hnone e he2

theorem getField_setFields_none :
    ∀ (payload : Doc) (d : Doc) (k : String),
      getField payload k = none →
      getField (setFields d payload) k = getField d k := by
  intro payload
  induction payload with
  | nil => intro d k _; rfl
  | cons e rest ih =>
    intro d k hnone
    obtain ⟨k2, v2⟩ := e
    rw [getField] at hnone
    by_cases hk2 : k2 = k
    · rw [if_pos hk2] at hnone; exact absurd hnone (by simp)
    · rw [if_neg hk2] at hnone
      show getField (setFields (setField d k2 v2) rest) k = getField d k
      rw [ih (setField d k2 v2) k hnone, getField_setField_ne d k2 k v2 hk2]

/-! ### Claim theorems -/

/-- C1: on the page text "Studio apartment, no pets allowed" the extraction
pipeline yields bedroom 0 and bathroom null as claimed, but the pet-policy
phrase scan returns "Yes", not "No": the positive phrase "pets allowed" is a
substring of "no pets allowed" and the positive list is checked first, so
the source's own negative entry for this exact phrase is unreachable. -/
theorem c1_studio_no_pets_eval :
    extract_bed_bath_from_text "Studio apartment, no pets allowed" =
      ⟨some 0, none⟩ ∧
    check_pet_friendly "Studio apartment, no pets allowed" = some "Yes" ∧
    check_pet_friendly "Studio apartment, no pets allowed" ≠ some "No" :=
  ⟨by decide, by decide, by decide⟩

/-- C6: any text containing the token "studio" (case-insensitively) makes
`extract_bed_bath_from_text` return bedroom 0; the numeric bedroom patterns
only assign while the bedroom is still unset, so studio detection takes
priority. -/
theorem c6_studio_precedence (text : String)
    (h : containsSub ("studio".data) (pyLower text.data) = true) :
    (extract_bed_bath_from_text text).bedroom = some 0 := by
  by_cases he : text = ""
  · subst he; exact absurd h (by decide)
  · unfold extract_bed_bath_from_text
    rw [if_neg he]
    simp only [h, if_true]
    exact bedLoop_some _ _ _

theorem c6_studio_precedence_witness :
    containsSub ("studio".data) (pyLower ("Studio, 3 bd apartment").data) = true ∧
    (extract_bed_bath_from_text "Studio, 3 bd apartment").bedroom = some 0 :=
  ⟨by decide, c6_studio_precedence "Studio, 3 bd apartment" (by decide)⟩

/-- C2: the batching loop of `scrape_all_listings` only ever places a record
into the current buffer or a handed batch when both its title and its
address are non-empty, so no record with empty compulsory data is ever given
to `save_to_mongodb_batch`. -/
theorem c2_compulsory_gate (save_to_db : Bool) (batch_size : Nat)
    (scraped : List ListingData) :
    (∀ b ∈ (scrape_all_listings_batches save_to_db batch_size scraped).handed,
      ∀ l ∈ b, l.title ≠ "" ∧ l.address ≠ "") ∧
    (∀ l ∈ (scrape_all_listings_batches save_to_db batch_size scraped).current,
      l.title ≠ "" ∧ l.address ≠ "") := by
  have hbase : gateInv ⟨[], [], []⟩ := by constructor <;> simp
  have hfold := foldl_gateInv save_to_db batch_size scraped ⟨[], [], []⟩ hbase
  unfold scrape_all_listings_batches
  set st := scraped.foldl (processListing save_to_db batch_size) ⟨[], [], []⟩ with hst
  by_cases hfin : st.current ≠ [] ∧ save_to_db = true
  · rw [if_pos hfin]
    obtain ⟨hh, hc⟩ := hfold
    refine ⟨?_, hc⟩
    intro b hb
    rcases List.mem_append.mp hb with hb1 | hb2
    · exact hh b hb1
    · simp at hb2; subst hb2; exact hc
  · rw [if_neg hfin]; exact hfold

theorem keyCount_applyListing (overwrite_data : Bool) (pyhash : String → Int)
    (now : String) (store : Store) (l : ListingData) :
    keyCount (applyListing overwrite_data pyhash now store l)
        (docId pyhash l.listing_url) =
      max 1 (keyCount store (docId pyhash l.listing_url)) := by
  cases overwrite_data with
  | false => simp [applyListing, keyCount_updateSetUpsert]
  | true => simp [applyListing, keyCount_replaceUpsert]

/-- C5: in replace mode, persisting two records with the same source URL in
sequence leaves exactly one stored document under the derived id, equal to
the most recent payload; in merge mode, an upsert preserves stored fields
that are absent from the new payload. -/
theorem c5_persistence_modes (pyhash : String → Int) (now1 now2 : String)
    (l1 l2 : ListingData) (store : Store)
    (hurl : l1.listing_url = l2.listing_url)
    (hclean : keyCount store (docId pyhash l2.listing_url) ≤ 1) :
    (keyCount
        (save_to_mongodb_batch true pyhash now2
          (save_to_mongodb_batch true pyhash now1 store [l1]) [l2])
        (docId pyhash l2.listing_url) = 1 ∧
      storeLookup
        (save_to_mongodb_batch true pyhash now2
          (save_to_mongodb_batch true pyhash now1 store [l1]) [l2])
        (docId pyhash l2.listing_url) = some (listingDict pyhash now2 l2)) ∧
    (∀ (l : ListingData) (pre post : Store) (d : Doc) (k : String) (v : Value),
      (∀ e ∈ pre, e.1 ≠ docId pyhash l.listing_url) →
      getField d k = some v →
      getField (listingDict pyhash now2 l) k = none →
      getFieldAt
        (save_to_mongodb_batch false pyhash now2
          (pre ++ (docId pyhash l.listing_url, d) :: post) [l])
        (docId pyhash l.listing_url) k = some v) := by
  constructor
  · have h1 : save_to_mongodb_batch true pyhash now1 store [l1] =
        replaceUpsert store (docId pyhash l1.listing_url)
          (listingDict pyhash now1 l1) := rfl
    have h2 : save_to_mongodb_batch true pyhash now2
        (save_to_mongodb_batch true pyhash now1 store [l1]) [l2] =
        replaceUpsert (save_to_mongodb_batch true pyhash now1 store [l1])
          (docId pyhash l2.listing_url) (listingDict pyhash now2 l2) := rfl
    constructor
    · rw [h2, keyCount_replaceUpsert, h1, hurl, keyCount_replaceUpsert]
      omega
    · rw [h2, storeLookup_replaceUpsert]
  · intro l pre post d k v hpre hget hnone
    have hsave : save_to_mongodb_batch false pyhash now2
        (pre ++ (docId pyhash l.listing_url, d) :: post) [l] =
        updateSetUpsert (pre ++ (docId pyhash l.listing_url, d) :: post)
          (docId pyhash l.listing_url) (listingDict pyhash now2 l) := rfl
    rw [hsave, updateSetUpsert_found pre post (docId pyhash l.listing_url) d
      (listingDict pyhash now2 l) hpre]
    unfold getFieldAt
    rw [storeLookup_found pre post (docId pyhash l.listing_url)
      (setFields d (listingDict pyhash now2 l)) hpre]
    rw [Option.some_bind]
    rw [getField_setFields_none (listingDict pyhash now2 l) d k hnone]
    exact hget

theorem c5_persistence_modes_witness :
    keyCount
      (save_to_mongodb_batch true pyhash0 "t2"
        (save_to_mongodb_batch true pyhash0 "t1" [] [sampleA]) [sampleB])
      (docId pyhash0 sampleB.listing_url) = 1 ∧
    storeLookup
      (save_to_mongodb_batch true pyhash0 "t2"
        (save_to_mongodb_batch true pyhash0 "t1" [] [sampleA]) [sampleB])
      (docId pyhash0 sampleB.listing_url) =
      some (listingDict pyhash0 "t2" sampleB) :=
  (c5_persistence_modes pyhash0 "t1" "t2" sampleA sampleB [] rfl (by decide)).1

/-- C9: the document id of a bulk operation is a function of the record's
`listing_url` alone, so two records with equal URLs target the same stored
document, and persisting them both into a store with no document under that
id leaves exactly one. -/
theorem c9_key_collapse (pyhash : String → Int) (overwrite_data : Bool)
    (now : String) (l1 l2 : ListingData) (store : Store)
    (hurl : l1.listing_url = l2.listing_url)
    (hfresh : keyCount store (docId pyhash l1.listing_url) = 0) :
    docId pyhash l1.listing_url = docId pyhash l2.listing_url ∧
    keyCount (save_to_mongodb_batch overwrite_data pyhash now store [l1, l2])
      (docId pyhash l1.listing_url) = 1 := by
  have hid : docId pyhash l1.listing_url = docId pyhash l2.listing_url := by
    rw [hurl]
  refine ⟨hid, ?_⟩
  have hsave : save_to_mongodb_batch overwrite_data pyhash now store [l1, l2] =
      applyListing overwrite_data pyhash now
        (applyListing overwrite_data pyhash now store l1) l2 := rfl
  rw [hsave, hid, keyCount_applyListing, ← hid, keyCount_applyListing, hfresh]
  simp

theorem c9_key_collapse_witness :
    docId pyhash0 sampleA.listing_url = docId pyhash0 sampleB.listing_url ∧
    keyCount (save_to_mongodb_batch false pyhash0 "t" [] [sampleA, sampleB])
      (docId pyhash0 sampleA.listing_url) = 1 :=
  c9_key_collapse pyhash0 false "t" sampleA sampleB [] rfl (by decide)

/-- C10: `extract_price_from_text` needs no currency symbol: on non-empty
input it returns exactly the first maximal digit run of the comma-stripped
text, and it returns `None` exactly when the input is empty or has no
digit. -/
theorem c10_price_first_digit_run (s : String) :
    (extract_price_from_text s = none ↔
      (s = "" ∨ ∀ c ∈ s.data, c.isDigit = false)) ∧
    (s ≠ "" →
      extract_price_from_text s =
        firstDigitRun (s.data.filter (fun c => c ≠ ','))) := by
  have hnc : ∀ c ∈ s.data.filter (fun c => c ≠ ','), c ≠ ',' := by
    intro c hcmem
    have := (List.mem_filter.mp hcmem).2
    simpa using this
  by_cases he : s = ""
  · subst he
    refine ⟨by simp [extract_price_from_text], by simp⟩
  · have hmain : extract_price_from_text s =
        firstDigitRun (s.data.filter (fun c => c ≠ ',')) := by
      unfold extract_price_from_text
      rw [if_neg he]
      exact reSearch_price_eq_firstDigitRun _ hnc
    refine ⟨?_, fun _ => hmain⟩
    rw [hmain, firstDigitRun_eq_none_iff]
    constructor
    · intro h
      right
      intro c hcmem
      by_cases hcomma : c = ','
      · subst hcomma; rfl
      · exact h c (List.mem_filter.mpr ⟨hcmem, by simpa using hcomma⟩)
    · rintro (h | h)
      · exact absurd h he
      · intro c hcmem
        exact h c (List.mem_filter.mp hcmem).1

theorem c10_price_first_digit_run_witness :
    ("$1,950/mo" : String) ≠ "" ∧
    extract_price_from_text "$1,950/mo" =
      firstDigitRun (("$1,950/mo" : String).data.filter (fun c => c ≠ ',')) ∧
    extract_price_from_text "$1,950/mo" = some 1950 :=
  ⟨by decide, (c10_price_first_digit_run "$1,950/mo").2 (by decide), by decide⟩

/-- C3: whatever the index pages offer, the URL list collected by the
pagination walk contains exactly the URLs of the discovery stream, with no
duplicates, ordered by first occurrence in the stream. -/
theorem c3_pagination_dedup (join : String → String) (pages : Nat → IndexPage) :
    (∀ u, u ∈ (extract_listing_urls_with_pagination join pages).urls ↔
        u ∈ (extract_listing_urls_with_pagination join pages).stream) ∧
    (extract_listing_urls_with_pagination join pages).urls.Nodup ∧
    List.Pairwise (fun u v =>
        (extract_listing_urls_with_pagination join pages).stream.indexOf u <
        (extract_listing_urls_with_pagination join pages).stream.indexOf v)
      (extract_listing_urls_with_pagination join pages).urls := by
  have hfs : (extract_listing_urls_with_pagination join pages).urls =
      firstSeen (extract_listing_urls_with_pagination join pages).stream :=
    walkLoop_firstSeen join pages max_pages 1 [] 0 [] rfl
  refine ⟨?_, ?_, ?_⟩
  · intro u; rw [hfs]; exact mem_firstSeen _ u
  · rw [hfs]; exact nodup_firstSeen _
  · rw [hfs]; exact pairwise_firstSeen _

/-- C4: the pagination walk visits at most the hard ceiling of 20 index
pages whatever the pages and the next control do, and a pathological site
whose next control is always present and enabled is stopped at exactly the
ceiling. -/
theorem c4_pagination_ceiling (join : String → String) (pages : Nat → IndexPage) :
    (extract_listing_urls_with_pagination join pages).pagesVisited ≤ 20 ∧
    (extract_listing_urls_with_pagination id alwaysNextPages).pagesVisited = 20 :=
  ⟨walkLoop_visited join pages max_pages 1 [] 0 [], by decide⟩

/-- C7: `safe_navigate_to_page` makes at most three attempts, attempt `i`
uses the wait strategy at index `i mod 3` of the strategy list and a timeout
of `30000 + i * 15000` milliseconds, and when every attempt fails (timeout,
other exception, or an empty page title) the function returns false. -/
theorem c7_navigation_retries (env : Nat → String → Nat → GotoResult) :
    (∃ k, k ≤ 3 ∧ (safe_navigate_to_page env 3).2 = (List.range k).map navParams) ∧
    ((∀ i, i < 3 → attemptSucceeds (env i (navParams i).1 (navParams i).2) = false) →
      (safe_navigate_to_page env 3).1 = false) ∧
    (∀ i, navParams i =
      (wait_strategies.getD (i % 3) "", 30000 + i * 15000)) := by
  obtain ⟨m, hm, htr, hfail⟩ := navGo_spec env (List.range 3) []
  have hm3 : m ≤ 3 := by simpa using hm
  refine ⟨⟨m, hm3, ?_⟩, ?_, fun i => rfl⟩
  · show (navGo env (List.range 3) []).2 = _
    rw [htr, List.take_range]
    have hmin : min m 3 = m := by omega
    rw [hmin]
    simp
  · intro hall
    show (navGo env (List.range 3) []).1 = false
    exact hfail (fun a ha => hall a (List.mem_range.mp ha))

theorem c7_navigation_retries_witness :
    (safe_navigate_to_page (fun _ _ _ => GotoResult.timeoutErr) 3).1 = false :=
  (c7_navigation_retries (fun _ _ _ => GotoResult.timeoutErr)).2.1 (fun _ _ => rfl)

/-- C8 counterexample: for a run that found zero listings the code does not
produce a summary report: `generate_summary_report` returns the bare empty
dict on an empty listing list (no total, no counts), and the tail of `main`
returns at the distinct no-listings message before any report is built. -/
theorem c8_zero_listings_counterexample :
    generate_summary_report true [] = SummaryReport.emptyDict ∧
    mainOutcome true [] = RunOutcome.noListings :=
  ⟨rfl, rfl⟩

/-- C8 amended: a run with at least one valid listing always reaches the
summary report, whose total is the number of listings; a zero-listings run
takes the distinct no-listings exit and produces no summary report. -/
theorem c8_summary_report (overwrite_data : Bool) (listings : List ListingData) :
    (listings ≠ [] →
      mainOutcome overwrite_data listings =
        RunOutcome.completed (generate_summary_report overwrite_data listings) ∧
      reportTotal (generate_summary_report overwrite_data listings) =
        some listings.length) ∧
    mainOutcome overwrite_data [] = RunOutcome.noListings := by
  constructor
  · intro hne
    constructor
    · unfold mainOutcome
      rw [if_neg hne]
    · unfold generate_summary_report
      rw [if_neg hne]
      rfl
  · rfl

theorem c8_summary_report_witness :
    mainOutcome true [sampleA] =
      RunOutcome.completed (generate_summary_report true [sampleA]) ∧
    reportTotal (generate_summary_report true [sampleA]) = some 1 := by
  have h := (c8_summary_report true [sampleA]).1 (by simp)
  exact ⟨h.1, by simpa using h.2⟩

theorem c2_compulsory_gate_witness :
    ({ title := "T", address := "A" } : ListingData).title ≠ "" ∧
    ({ title := "T", address := "A" } : ListingData).address ≠ "" :=
  (c2_compulsory_gate true 1 [{ title := "T", address := "A" }]).1
    [{ title := "T", address := "A" }] (by decide)
    { title := "T", address := "A" } (by decide)

end Scraper
